import Mathlib

/-!
# Verification of the pandas-genomics core against its specification

Shallow embedding of the `Variant` / `Genotype` scalar model
(`pandas_genomics/scalars.py`), the `GenotypeArray` column operations
(`pandas_genomics/arrays/genotype_array.py` and the encoding/info mixins), and
the PLINK BED bit codec (`pandas_genomics/io/plink/{to,from}_plink.py`).

Strings are embedded as `List Char`; machine `uint8` allele indices as `Nat`
(all values produced by the code stay below 256, and Python list repetition
`[x] * k` for negative `k`, which yields `[]`, coincides with truncated `Nat`
subtraction in the replicate counts).  Fallible Python code (raising
`ValueError` etc.) is embedded with `Except Unit` / `Option`.
-/

set_option maxRecDepth 10000

namespace PandasGenomics

/-- Sentinel for a missing allele index or missing score (`scalars.MISSING_IDX`). -/
def MISSING_IDX : Nat := 255

/-- Embedding of `pandas_genomics.scalars.Variant`: identity fields plus the
allele palette (`alleles`, reference at index 0), ploidy and optional score. -/
structure Variant where
  chromosome : Option (List Char)
  position : Nat
  id : List Char
  alleles : List (List Char)
  ploidy : Nat
  score : Option Nat
deriving DecidableEq, Repr, Inhabited

/-- `Variant.is_valid_allele_idx`: true for `MISSING_IDX` or an index into the
palette (negative indices cannot arise in the `Nat` embedding; Python rejects
them explicitly). -/
def isValidAlleleIdx (v : Variant) (idx : Nat) : Bool :=
  idx == MISSING_IDX || idx < v.alleles.length

/-- Index of the first occurrence of `a`, as Python `list.index` computes it
(callers guard membership). -/
def idxOf {α : Type} [DecidableEq α] (a : α) : List α → Nat
  | [] => 0
  | b :: r => if b = a then 0 else idxOf a r + 1

/-- `Variant.get_idx_from_allele` with `add=False`: `"."` means missing, an
allele in the palette resolves to its index, anything else raises. -/
def getIdxFromAllele (v : Variant) (a : List Char) : Except Unit Nat :=
  if a = ['.'] then .ok MISSING_IDX
  else if a ∈ v.alleles then .ok (idxOf a v.alleles)
  else .error ()

/-- Insertion of one element into a sorted list (helper for `sortNat`). -/
def insertNat (a : Nat) : List Nat → List Nat
  | [] => [a]
  | b :: r => if a ≤ b then a :: b :: r else b :: insertNat a r

/-- Ascending insertion sort, embedding Python `sorted` on the allele tuple. -/
def sortNat : List Nat → List Nat
  | [] => []
  | a :: r => insertNat a (sortNat r)

/-- Score validation from `Genotype.__init__`: `None` stays missing, a value
outside `[0, 255]` raises, `255` is stored as missing, otherwise the exact
value is kept. -/
def scoreInit (score : Option Int) : Except Unit (Option Int) :=
  match score with
  | none => .ok none
  | some s =>
      if s < 0 ∨ s > 255 then .error ()
      else if s = 255 then .ok none
      else .ok (some s)

/-- `Genotype.__init__` acting on the allele indices: reject more indices than
ploidy, pad with `MISSING_IDX` up to ploidy, sort ascending, then validate each
index against the variant. -/
def genotypeInit (v : Variant) (idxs : List Nat) : Except Unit (List Nat) :=
  if idxs.length > v.ploidy then .error ()
  else
    let padded := idxs ++ List.replicate (v.ploidy - idxs.length) MISSING_IDX
    let sortedIdxs := sortNat padded
    if sortedIdxs.all (fun a => isValidAlleleIdx v a) then .ok sortedIdxs
    else .error ()

/-- Resolve a list of allele strings to indices, propagating lookup failure
(`Variant.make_genotype`'s list comprehension over `get_idx_from_allele`). -/
def allelesToIdxs (v : Variant) : List (List Char) → Except Unit (List Nat)
  | [] => .ok []
  | a :: r => do
      let i ← getIdxFromAllele v a
      let rest ← allelesToIdxs v r
      .ok (i :: rest)

/-- `Variant.make_genotype` with `add_alleles=False`.  Note the source computes
the missing-index padding as `self.ploidy - len(self.alleles)` — the length of
the **palette**, not of the supplied allele list (Python's negative list
repetition yields `[]`, matching truncated `Nat` subtraction). -/
def makeGenotype (v : Variant) (alleles : List (List Char)) : Except Unit (List Nat) :=
  if alleles.length > v.ploidy then .error ()
  else do
    let idxs ← allelesToIdxs v alleles
    let missing := List.replicate (v.ploidy - v.alleles.length) MISSING_IDX
    genotypeInit v (idxs ++ missing)

/-- Python `str.split(sep)` on a single-character separator (`"".split` gives
`[""]`, i.e. `[[]]`). -/
def splitOnChar (sep : Char) : List Char → List (List Char)
  | [] => [[]]
  | c :: r =>
      if c = sep then [] :: splitOnChar sep r
      else
        match splitOnChar sep r with
        | [] => [[c]]
        | h :: t => (c :: h) :: t

/-- `Variant.make_genotype_from_str` with the default separator and
`add_alleles=False`; shares the palette-length padding slip of
`make_genotype`. -/
def makeGenotypeFromStr (v : Variant) (s : List Char) (sep : Char) : Except Unit (List Nat) :=
  let alleles := splitOnChar sep s
  if alleles.length > v.ploidy then .error ()
  else do
    let idxs ← allelesToIdxs v alleles
    let missing := List.replicate (v.ploidy - v.alleles.length) MISSING_IDX
    genotypeInit v (idxs ++ missing)

/-- A diploid variant whose palette holds only the reference allele `A`. -/
def vRefOnlyA : Variant :=
  { chromosome := none, position := 0, id := [], alleles := [['A']],
    ploidy := 2, score := none }

/-- A diploid variant with reference `A` and alternate `T`. -/
def vAT : Variant :=
  { chromosome := none, position := 0, id := [], alleles := [['A'], ['T']],
    ploidy := 2, score := none }

/-- C7: `make_genotype` (and `make_genotype_from_str`) is claimed to succeed
whenever at most `ploidy` palette alleles are supplied, padding the rest with
`MISSING_IDX`.  The code instead pads with `ploidy - len(palette)` missing
indices, so for a diploid variant whose palette holds only `A`, the two-allele
call `make_genotype('A', 'A')` builds three indices and raises — although the
claim (and the method's own ploidy check and docstring) require it to succeed
with allele indices `(0, 0)`.  Padding still works when the palette is at
least as long as the ploidy: `make_genotype('A')` on an `A/T` variant gives
`(0, MISSING_IDX)`. -/
theorem claim_C7_make_genotype_padding_bug :
    makeGenotype vRefOnlyA [['A'], ['A']] = .error () ∧
    makeGenotypeFromStr vRefOnlyA ['A', '/', 'A'] '/' = .error () ∧
    ([['A'], ['A']].length ≤ vRefOnlyA.ploidy ∧ ['A'] ∈ vRefOnlyA.alleles) ∧
    makeGenotype vAT [['A']] = .ok [0, MISSING_IDX] :=
  ⟨rfl, rfl, ⟨by decide, by decide⟩, rfl⟩

/-- C10: a `Genotype` score of `255` is stored as missing (identically to
passing no score), scores in `[0, 254]` are stored exactly, scores outside
`[0, 255]` raise, and hence every stored score is missing or in `[0, 254]`. -/
theorem claim_C10_score_validation (s : Int) :
    scoreInit none = .ok none ∧
    (s = 255 → scoreInit (some s) = .ok none) ∧
    (0 ≤ s → s ≤ 254 → scoreInit (some s) = .ok (some s)) ∧
    ((s < 0 ∨ 255 < s) → scoreInit (some s) = .error ()) ∧
    (∀ r, scoreInit (some s) = .ok r → r = none ∨ ∃ w, r = some w ∧ 0 ≤ w ∧ w ≤ 254) := by
  refine ⟨rfl, ?_, ?_, ?_, ?_⟩
  · rintro rfl; rfl
  · intro h0 h254
    simp only [scoreInit]
    rw [if_neg (by omega), if_neg (by omega)]
  · intro h
    simp only [scoreInit]
    rw [if_pos (by omega)]
  · intro r hr
    by_cases hneg : s < 0 ∨ s > 255
    · simp only [scoreInit, if_pos hneg] at hr
      exact Except.noConfusion hr
    · by_cases h255 : s = 255
      · simp only [scoreInit, if_neg hneg, if_pos h255, Except.ok.injEq] at hr
        exact Or.inl hr.symm
      · simp only [scoreInit, if_neg hneg, if_neg h255, Except.ok.injEq] at hr
        refine Or.inr ⟨s, hr.symm, by omega, by omega⟩

/-- Witness for C10 at score 7: the hypotheses are satisfiable and the exact
value is stored. -/
theorem claim_C10_witness : scoreInit (some 7) = .ok (some 7) :=
  (claim_C10_score_validation 7).2.2.1 (by norm_num) (by norm_num)

/-!
## Statistics: `InfoMixin.maf` and `InfoMixin.hwe_pval`

A `GenotypeArray` column is embedded as its `allele_idxs` matrix: a list of
rows, each row the (sorted) allele indices of one sample.  Floats appear only
as ratios of integer counts, embedded exactly as `ℚ`; the `NaN` "not
computable" return is embedded as `none` / a dedicated constructor.
-/

/-- `l.foldr max 0`: the embedding of `np.max` / row-wise `max` on counts and
allele indices (callers only use it on nonempty data). -/
def listMax (l : List Nat) : Nat := l.foldr max 0

/-- `np.bincount` on a nonempty array: entry `k` counts occurrences of `k`,
for `k` up to the largest value present. -/
def bincount (l : List Nat) : List Nat :=
  (List.range (listMax l + 1)).map (fun k => l.count k)

/-- Number of non-missing allele observations,
`(self.allele_idxs != MISSING_IDX).sum().sum()`. -/
def countNonMissing (rows : List (List Nat)) : Nat :=
  ((rows.flatten).filter (fun a => a ≠ MISSING_IDX)).length

/-- Python `int(q)` on a nonnegative float product: truncation toward zero,
`Int.tdiv` of the reduced numerator by the denominator. -/
def truncQ (q : ℚ) : Int := q.num.tdiv (q.den : Int)

/-- The numerator of `maf`: `allele_counts[1:].max()` after the (ineffective,
see below) attempt to drop the missing bin. -/
def mafNumerator (rows : List (List Nat)) : Nat :=
  let alleleCounts := bincount rows.flatten
  let trimmed :=
    if alleleCounts.length = MISSING_IDX then alleleCounts.dropLast else alleleCounts
  listMax (trimmed.drop 1)

/-- `InfoMixin.maf`: `none` embeds the `NaN` "all missing" return.  Note the
source drops the trailing (missing) bin only when `len(allele_counts)` equals
`MISSING_IDX = 255`, but `np.bincount` of data containing index 255 has length
256, so the guard never fires and missing alleles are counted. -/
def maf (rows : List (List Nat)) : Option ℚ :=
  if countNonMissing rows = 0 then none
  else if (bincount rows.flatten).length = 1 then some 0
  else some ((mafNumerator rows : ℚ) / (countNonMissing rows : ℚ))

/-- C2: `maf` is claimed never to count `MISSING_IDX` as an allele.  On the
single-sample column `(A, missing)` the code counts the missing index 255 as
the most frequent alternate allele and returns `1`, although every non-missing
allele is the reference, for which the claim requires `0.0`.  The documented
edge cases do hold: `NaN` when everything is missing, `0.0` when all alleles
are reference, and `1/2` on `[AA, TT, AT]`. -/
theorem claim_C2_maf_counts_missing :
    maf [[0, 255]] = some 1 ∧ (1 : ℚ) ≠ 0 ∧
    maf [[255, 255]] = none ∧
    maf [[0, 0]] = some 0 ∧
    maf [[0, 0], [1, 1], [0, 1]] = some (1 / 2) := by
  refine ⟨?_, by norm_num, ?_, ?_, ?_⟩
  · unfold maf
    rw [if_neg (by decide), if_neg (by decide),
      show mafNumerator [[0, 255]] = 1 from by decide,
      show countNonMissing [[0, 255]] = 1 from by decide]
    norm_num
  · unfold maf
    rw [if_pos (by decide)]
  · unfold maf
    rw [if_neg (by decide), if_pos (by decide)]
  · unfold maf
    rw [if_neg (by decide), if_neg (by decide),
      show mafNumerator [[0, 0], [1, 1], [0, 1]] = 3 from by decide,
      show countNonMissing [[0, 0], [1, 1], [0, 1]] = 6 from by decide]
    norm_num

/-- Rows kept by `hwe_pval`: those whose row-wise maximum is not
`MISSING_IDX`, i.e. rows without any missing allele. -/
def nonmissingRows (rows : List (List Nat)) : List (List Nat) :=
  rows.filter (fun r => listMax r ≠ MISSING_IDX)

/-- `itertools.combinations_with_replacement(range n, 2)` in its lexicographic
order. -/
def pairsUpTo (n : Nat) : List (Nat × Nat) :=
  (List.range n).flatMap (fun a => ((List.range n).drop a).map (fun b => (a, b)))

/-- Indexing into the allele-frequency list (indices produced by `pairsUpTo`
are always in range). -/
def getQ (l : List ℚ) (i : Nat) : ℚ := l.getD i 0

/-- The non-missing allele frequencies, `allele_counts / total_alleles`. -/
def alleleFreqs (counts : List Nat) (totalGt : Nat) : List ℚ :=
  counts.map (fun c => (c : ℚ) / (2 * (totalGt : ℚ)))

/-- One expected genotype-pair count of `hwe_pval`: `int(f_i * f_j * N * 2)`
(heterozygous) or `int(f_i^2 * N)` (homozygous), `int` being Python
truncation. -/
def expectedFor (freqs : List ℚ) (totalGt : ℚ) (p : Nat × Nat) : Int :=
  if p.1 = p.2 then truncQ (getQ freqs p.1 * getQ freqs p.2 * totalGt)
  else truncQ (getQ freqs p.1 * getQ freqs p.2 * totalGt * 2)

/-- The expected genotype-pair counts of `hwe_pval`, over all unordered allele
pairs. -/
def expectedCounts (rows : List (List Nat)) : List Int :=
  (pairsUpTo (bincount (nonmissingRows rows).flatten).length).map
    (expectedFor
      (alleleFreqs (bincount (nonmissingRows rows).flatten) (nonmissingRows rows).length)
      ((nonmissingRows rows).length : ℚ))

/-- The observed genotype-pair counts of `hwe_pval`: rows exactly equal to the
sorted pair `(i, j)`. -/
def observedCounts (rows : List (List Nat)) : List Nat :=
  (pairsUpTo (bincount (nonmissingRows rows).flatten).length).map
    (fun p => ((nonmissingRows rows).filter (fun r => r = [p.1, p.2])).length)

/-- For nonnegative rationals Python truncation agrees with the floor. -/
theorem truncQ_eq_floor {q : ℚ} (h : 0 ≤ q) : truncQ q = ⌊q⌋ := by
  have hnum : 0 ≤ q.num := Rat.num_nonneg.mpr h
  rw [truncQ, Int.tdiv_eq_ediv hnum (by positivity), ← Rat.floor_intCast_div_natCast,
    Rat.num_div_den]

/-- Python `min` over a list of ints (always applied to nonempty lists). -/
def minInt : List Int → Int
  | [] => 0
  | x :: xs => xs.foldl min x

/-- Outcome of `hwe_pval`: `NaN`, the early `1.0` all-reference return, or the
`scipy.stats.chisquare` call on the computed observed/expected counts (the
p-value itself is delegated to the external statistics library). -/
inductive HweResult where
  | nan : HweResult
  | allRef : HweResult
  | chisq (observed : List Nat) (expected : List Int) : HweResult
deriving DecidableEq, Repr

/-- `InfoMixin.hwe_pval` up to the external chi-square call, including the
`required_ploidy(2, nan)` wrapper. -/
def hwePval (ploidy : Nat) (rows : List (List Nat)) : HweResult :=
  if ploidy ≠ 2 then .nan
  else if (nonmissingRows rows).length = 0 then .nan
  else if (nonmissingRows rows).length < 2 then .nan
  else if (bincount (nonmissingRows rows).flatten).length = 1 then .allRef
  else if minInt (expectedCounts rows) < 5 then .nan
  else .chisq (observedCounts rows) (expectedCounts rows)

/-- Evaluation of the expected counts on the two-row all-reference column. -/
theorem expectedCounts_allRef_two : expectedCounts [[0, 0], [0, 0]] = [2] := by
  unfold expectedCounts
  rw [show bincount (nonmissingRows [[0, 0], [0, 0]]).flatten = [4] from by decide,
    show (nonmissingRows [[0, 0], [0, 0]]).length = 2 from by decide,
    show pairsUpTo [4].length = [(0, 0)] from by decide]
  simp only [List.map_cons, List.map_nil, expectedFor, getQ, alleleFreqs]
  norm_num
  rw [truncQ_eq_floor (by norm_num)]
  norm_num

/-- Evaluation of the expected counts on the column `[[0, 1], [0, 0]]`:
frequencies `3/4` and `1/4`, giving truncated expected counts `[1, 0, 0]`. -/
theorem expectedCounts_het_two : expectedCounts [[0, 1], [0, 0]] = [1, 0, 0] := by
  unfold expectedCounts
  rw [show bincount (nonmissingRows [[0, 1], [0, 0]]).flatten = [3, 1] from by decide,
    show (nonmissingRows [[0, 1], [0, 0]]).length = 2 from by decide,
    show pairsUpTo [3, 1].length = [(0, 0), (0, 1), (1, 1)] from by decide]
  simp only [List.map_cons, List.map_nil, expectedFor, getQ, alleleFreqs]
  norm_num
  refine ⟨?_, ?_, ?_⟩ <;>
    · rw [truncQ_eq_floor (by norm_num), Int.floor_eq_iff]
      constructor <;> norm_num

/-- C6 counterexample: two all-reference diploid rows.  The only expected
genotype-pair count is `2 < 5`, yet `hwe_pval` returns the early `1.0`
("all reference") instead of the `NaN` the claim requires whenever an
expected count is below 5. -/
theorem claim_C6_counterexample :
    hwePval 2 [[0, 0], [0, 0]] = .allRef ∧
    expectedCounts [[0, 0], [0, 0]] = [2] ∧
    minInt (expectedCounts [[0, 0], [0, 0]]) < 5 ∧
    HweResult.allRef ≠ HweResult.nan := by
  refine ⟨by decide, expectedCounts_allRef_two, ?_, by decide⟩
  rw [expectedCounts_allRef_two]
  decide

/-- A row-wise maximum bounds every entry from below. -/
theorem le_listMax {l : List Nat} {x : Nat} (hx : x ∈ l) : x ≤ listMax l := by
  induction l with
  | nil => cases hx
  | cons a r ih =>
      rcases List.mem_cons.mp hx with rfl | hx'
      · exact Nat.le_max_left _ _
      · exact le_trans (ih hx') (Nat.le_max_right _ _)

/-- A common bound on all entries bounds the row-wise maximum. -/
theorem listMax_le {l : List Nat} {b : Nat} (hb : ∀ x ∈ l, x ≤ b) : listMax l ≤ b ∨ l = [] := by
  induction l with
  | nil => exact Or.inr rfl
  | cons a r ih =>
      left
      have ha := hb a (by simp)
      rcases ih (fun x hx => hb x (by simp [hx])) with h | rfl
      · exact max_le ha h
      · simpa [listMax] using ha

/-- C6 amended: `hwe_pval` returns `NaN` for non-diploid variants, for columns
with at most one non-missing row, and — provided some non-reference allele is
observed — whenever an expected genotype-pair count is below 5; but when every
non-missing allele is the reference (and at least two rows are informative) it
returns `1.0` even if the expected count is below 5.  Rows containing any
missing allele are excluded from all counts. -/
theorem claim_C6_amended :
    (∀ (p : Nat) (rows : List (List Nat)), p ≠ 2 → hwePval p rows = .nan) ∧
    (∀ rows : List (List Nat), (nonmissingRows rows).length ≤ 1 → hwePval 2 rows = .nan) ∧
    (∀ rows : List (List Nat), 2 ≤ (nonmissingRows rows).length →
      (bincount (nonmissingRows rows).flatten).length ≠ 1 →
      minInt (expectedCounts rows) < 5 → hwePval 2 rows = .nan) ∧
    (∀ rows : List (List Nat), 2 ≤ (nonmissingRows rows).length →
      (bincount (nonmissingRows rows).flatten).length = 1 → hwePval 2 rows = .allRef) ∧
    (∀ (rows : List (List Nat)) (r : List Nat), (∀ x ∈ r, x ≤ 255) →
      (255 : Nat) ∈ r → r ∉ nonmissingRows rows) := by
  refine ⟨?_, ?_, ?_, ?_, ?_⟩
  · intro p rows hp
    unfold hwePval
    rw [if_pos hp]
  · intro rows h
    unfold hwePval
    rw [if_neg (by omega : ¬(2 : Nat) ≠ 2)]
    by_cases h0 : (nonmissingRows rows).length = 0
    · rw [if_pos h0]
    · rw [if_neg h0, if_pos (by omega)]
  · intro rows h2 hc hmin
    unfold hwePval
    rw [if_neg (by omega : ¬(2 : Nat) ≠ 2), if_neg (by omega), if_neg (by omega),
      if_neg hc, if_pos hmin]
  · intro rows h2 hc
    unfold hwePval
    rw [if_neg (by omega : ¬(2 : Nat) ≠ 2), if_neg (by omega), if_neg (by omega),
      if_pos hc]
  · intro rows r hb h255 hmem
    have hmax : listMax r = 255 := by
      have h1 := le_listMax h255
      rcases listMax_le hb with h2 | rfl
      · omega
      · cases h255
    simp only [nonmissingRows, List.mem_filter] at hmem
    exact absurd hmax (by simpa [MISSING_IDX] using hmem.2)

/-- Witness for all hypotheses of the amended C6 statement at concrete
columns: a triploid column, a single-row column, a two-allele column whose
smallest expected count is 0, an all-reference column, and a partially missing
row. -/
theorem claim_C6_amended_witness :
    hwePval 3 [[0, 0, 0]] = .nan ∧
    hwePval 2 [[0, 0]] = .nan ∧
    hwePval 2 [[0, 1], [0, 0]] = .nan ∧
    hwePval 2 [[0, 0], [0, 0]] = .allRef ∧
    [0, 255] ∉ nonmissingRows [[0, 255], [0, 0]] :=
  ⟨claim_C6_amended.1 3 _ (by decide),
   claim_C6_amended.2.1 _ (by decide),
   claim_C6_amended.2.2.1 _ (by decide) (by decide)
     (by rw [expectedCounts_het_two]; decide),
   claim_C6_amended.2.2.2.1 _ (by decide) (by decide),
   claim_C6_amended.2.2.2.2 _ [0, 255] (by decide) (by decide)⟩

/-!
## Encoding transforms (`EncodingMixin`)

Each transform masks rows containing a missing allele to the missing value
(`pd.NA` / `None`, embedded as `none`) and rejects variants with more than one
alternate allele; `encode_codominant` additionally requires ploidy 2 and
returns an ordered categorical over `["Ref", "Het", "Hom"]`.
-/

/-- `EncodingMixin.encode_additive`: row sums of allele indices, with rows
containing `MISSING_IDX` masked to missing. -/
def encodeAdditive (numAlleles : Nat) (rows : List (List Nat)) :
    Except Unit (List (Option Nat)) :=
  if numAlleles > 2 then .error ()
  else .ok (rows.map (fun r => if MISSING_IDX ∈ r then none else some r.sum))

/-- `EncodingMixin.encode_dominant`: 1 when any allele index equals 1, with
missing rows masked. -/
def encodeDominant (numAlleles : Nat) (rows : List (List Nat)) :
    Except Unit (List (Option Nat)) :=
  if numAlleles > 2 then .error ()
  else .ok (rows.map (fun r =>
    if MISSING_IDX ∈ r then none else some (if 1 ∈ r then 1 else 0)))

/-- `EncodingMixin.encode_recessive`: 1 when every allele index equals 1, with
missing rows masked. -/
def encodeRecessive (numAlleles : Nat) (rows : List (List Nat)) :
    Except Unit (List (Option Nat)) :=
  if numAlleles > 2 then .error ()
  else .ok (rows.map (fun r =>
    if MISSING_IDX ∈ r then none else some (if r.all (fun a => a = 1) then 1 else 0)))

/-- The ordered category labels of `encode_codominant`. -/
def codominantCategories : List String := ["Ref", "Het", "Hom"]

/-- `EncodingMixin.encode_codominant`: `categories[sum]` for row sums 0, 1, 2,
anything else (any row containing a missing index) maps to `None`;
requires at most one alternate allele and ploidy 2. -/
def encodeCodominant (numAlleles ploidy : Nat) (rows : List (List Nat)) :
    Except Unit (List String × List (Option String)) :=
  if numAlleles > 2 then .error ()
  else if ploidy ≠ 2 then .error ()
  else .ok (codominantCategories, rows.map (fun r =>
    if r.sum = 0 then some "Ref"
    else if r.sum = 1 then some "Het"
    else if r.sum = 2 then some "Hom"
    else none))

/-- C3: on the diploid single-alternate row set
`[hom-ref, het, hom-alt, partially-missing, fully-missing]` the four encodings
produce `[0,1,2,NA,NA]`, `[0,1,1,NA,NA]`, `[0,0,1,NA,NA]` and the ordered
categories `[Ref,Het,Hom,NA,NA]`; and in general every row containing a
missing allele is encoded as missing by all four transforms. -/
theorem claim_C3_encodings (pa : Nat) (hpa : pa ≤ 1) :
    encodeAdditive 2 [[0, 0], [0, 1], [1, 1], [pa, 255], [255, 255]] =
      .ok [some 0, some 1, some 2, none, none] ∧
    encodeDominant 2 [[0, 0], [0, 1], [1, 1], [pa, 255], [255, 255]] =
      .ok [some 0, some 1, some 1, none, none] ∧
    encodeRecessive 2 [[0, 0], [0, 1], [1, 1], [pa, 255], [255, 255]] =
      .ok [some 0, some 0, some 1, none, none] ∧
    encodeCodominant 2 2 [[0, 0], [0, 1], [1, 1], [pa, 255], [255, 255]] =
      .ok (codominantCategories, [some "Ref", some "Het", some "Hom", none, none]) ∧
    (∀ (na : Nat) (rws : List (List Nat)) (out : List (Option Nat)) (i : Nat) (r : List Nat),
      encodeAdditive na rws = .ok out → rws[i]? = some r → MISSING_IDX ∈ r →
      out[i]? = some none) ∧
    (∀ (na : Nat) (rws : List (List Nat)) (out : List (Option Nat)) (i : Nat) (r : List Nat),
      encodeDominant na rws = .ok out → rws[i]? = some r → MISSING_IDX ∈ r →
      out[i]? = some none) ∧
    (∀ (na : Nat) (rws : List (List Nat)) (out : List (Option Nat)) (i : Nat) (r : List Nat),
      encodeRecessive na rws = .ok out → rws[i]? = some r → MISSING_IDX ∈ r →
      out[i]? = some none) ∧
    (∀ (na pl : Nat) (rws : List (List Nat)) (cats : List String)
      (out : List (Option String)) (i : Nat) (r : List Nat),
      encodeCodominant na pl rws = .ok (cats, out) → rws[i]? = some r →
      MISSING_IDX ∈ r → out[i]? = some none) := by
  refine ⟨?_, ?_, ?_, ?_, ?_, ?_, ?_, ?_⟩
  · interval_cases pa <;> rfl
  · interval_cases pa <;> rfl
  · interval_cases pa <;> rfl
  · interval_cases pa <;> rfl
  · intro na rws out i r hok hget hmem
    unfold encodeAdditive at hok
    by_cases hna : na > 2
    · rw [if_pos hna] at hok; exact Except.noConfusion hok
    · rw [if_neg hna] at hok
      simp only [Except.ok.injEq] at hok
      subst hok
      rw [List.getElem?_map, hget]
      simp [hmem]
  · intro na rws out i r hok hget hmem
    unfold encodeDominant at hok
    by_cases hna : na > 2
    · rw [if_pos hna] at hok; exact Except.noConfusion hok
    · rw [if_neg hna] at hok
      simp only [Except.ok.injEq] at hok
      subst hok
      rw [List.getElem?_map, hget]
      simp [hmem]
  · intro na rws out i r hok hget hmem
    unfold encodeRecessive at hok
    by_cases hna : na > 2
    · rw [if_pos hna] at hok; exact Except.noConfusion hok
    · rw [if_neg hna] at hok
      simp only [Except.ok.injEq] at hok
      subst hok
      rw [List.getElem?_map, hget]
      simp [hmem]
  · intro na pl rws cats out i r hok hget hmem
    unfold encodeCodominant at hok
    by_cases hna : na > 2
    · rw [if_pos hna] at hok; exact Except.noConfusion hok
    · rw [if_neg hna] at hok
      by_cases hpl : pl ≠ 2
      · rw [if_pos hpl] at hok; exact Except.noConfusion hok
      · rw [if_neg hpl] at hok
        simp only [Except.ok.injEq, Prod.mk.injEq] at hok
        rcases hok with ⟨-, hout⟩
        subst hout
        rw [List.getElem?_map, hget]
        have hsum : 255 ≤ r.sum := List.single_le_sum (fun x _ => Nat.zero_le x) _ hmem
        simp only [Option.map_some']
        rw [if_neg (by omega), if_neg (by omega), if_neg (by omega)]

/-- Witness for C3 with the partially-missing row `(0, 255)`, and concrete
instantiations of the missing-propagation clauses at row index 3. -/
theorem claim_C3_witness :
    encodeAdditive 2 [[0, 0], [0, 1], [1, 1], [0, 255], [255, 255]] =
      .ok [some 0, some 1, some 2, none, none] ∧
    ([none] : List (Option Nat))[0]? = some none :=
  ⟨(claim_C3_encodings 0 (by decide)).1,
   (claim_C3_encodings 0 (by decide)).2.2.2.2.1 2 [[0, 255]] [none] 0 [0, 255]
     rfl rfl (by decide)⟩

/-!
## `GenotypeArray` columns (`arrays/genotype_array.py`)

This generation of the class stores each sample as a record with two allele
fields (`allele1`, `allele2`); a column is its shared `Variant` (the payload
of its `GenotypeDtype`, whose equality is `Variant` equality) plus the record
list.
-/

/-- Embedding of a `GenotypeArray`: the dtype's `Variant` and the packed
records. -/
structure GenotypeArray where
  variant : Variant
  records : List (Nat × Nat)
deriving DecidableEq, Repr, Inhabited

/-- `GenotypeArray._concat_same_type`: build the set of input dtypes, fail
unless it is a singleton, otherwise concatenate the record arrays under the
common dtype. -/
def concatSameType (l : List GenotypeArray) : Except Unit GenotypeArray :=
  match (l.map (fun a => a.variant)).dedup with
  | [d] => .ok ⟨d, (l.map (fun a => a.records)).flatten⟩
  | _ => .error ()

/-- A deduplicated list is a singleton exactly when the list is nonempty with
all elements equal to that value. -/
theorem dedup_eq_singleton_iff {α : Type} [DecidableEq α] (xs : List α) (d : α) :
    xs.dedup = [d] ↔ xs ≠ [] ∧ ∀ x ∈ xs, x = d := by
  constructor
  · intro h
    refine ⟨?_, ?_⟩
    · rintro rfl
      simp at h
    · intro x hx
      have hm : x ∈ xs.dedup := List.mem_dedup.mpr hx
      rw [h] at hm
      simpa using hm
  · rintro ⟨hne, hall⟩
    have hnd := xs.nodup_dedup
    cases hdd : xs.dedup with
    | nil =>
        exact absurd ((List.dedup_eq_nil _).mp hdd) hne
    | cons y ys =>
        have hy : y = d := hall y (List.mem_dedup.mp (by rw [hdd]; simp))
        subst hy
        cases ys with
        | nil => rfl
        | cons z zs =>
            have hz : z = y := by
              have h1 := hall z (List.mem_dedup.mp (by rw [hdd]; simp))
              have h2 := hall y (List.mem_dedup.mp (by rw [hdd]; simp))
              rw [h1, h2]
            rw [hdd] at hnd
            rcases List.nodup_cons.mp hnd with ⟨hmem, -⟩
            exact absurd (by rw [hz]; simp : y ∈ z :: zs) hmem

/-- C8: concatenation fails exactly when the inputs do not all share an
identical `Variant` dtype; on success the result is the in-order record
concatenation under the common dtype, with length the sum of the input
lengths; and two arrays differing only in `Variant.id` always fail. -/
theorem claim_C8_concat (l : List GenotypeArray) (hne : l ≠ []) :
    ((concatSameType l).isOk = false ↔
      ¬ ∀ a ∈ l, ∀ b ∈ l, a.variant = b.variant) ∧
    (∀ res, concatSameType l = .ok res →
      res.records = (l.map (fun a => a.records)).flatten ∧
      res.records.length = (l.map (fun a => a.records.length)).sum ∧
      ∀ a ∈ l, a.variant = res.variant) ∧
    (∀ a b : GenotypeArray, a.variant.id ≠ b.variant.id →
      (concatSameType [a, b]).isOk = false) := by
  refine ⟨?_, ?_, ?_⟩
  · cases hdd : (l.map (fun a => a.variant)).dedup with
    | nil =>
        exact absurd (by simpa using (List.dedup_eq_nil _).mp hdd) hne
    | cons d ds =>
        cases ds with
        | nil =>
            have hall := (dedup_eq_singleton_iff _ d).mp hdd
            constructor
            · intro hko
              rw [concatSameType, hdd] at hko
              exact Bool.noConfusion hko
            · intro hnot
              exact absurd
                (fun a ha b hb =>
                  (hall.2 _ (List.mem_map_of_mem _ ha)).trans
                    (hall.2 _ (List.mem_map_of_mem _ hb)).symm)
                hnot
        | cons e es =>
            constructor
            · intro _
              intro hall
              have hnd := (l.map (fun a => a.variant)).nodup_dedup
              rw [hdd] at hnd
              have hd : d ∈ l.map (fun a => a.variant) :=
                List.mem_dedup.mp (by rw [hdd]; simp)
              have he : e ∈ l.map (fun a => a.variant) :=
                List.mem_dedup.mp (by rw [hdd]; simp)
              rcases List.mem_map.mp hd with ⟨a, ha, rfl⟩
              rcases List.mem_map.mp he with ⟨b, hb, rfl⟩
              have : a.variant = b.variant := hall a ha b hb
              rcases List.nodup_cons.mp hnd with ⟨hmem, -⟩
              exact hmem (by rw [this]; simp)
            · intro _
              rw [concatSameType, hdd]
              cases es <;> rfl
  · intro res hres
    rw [concatSameType] at hres
    cases hdd : (l.map (fun a => a.variant)).dedup with
    | nil => rw [hdd] at hres; exact Except.noConfusion hres
    | cons d ds =>
        cases ds with
        | nil =>
            rw [hdd] at hres
            simp only [Except.ok.injEq] at hres
            subst hres
            refine ⟨rfl, ?_, ?_⟩
            · rw [List.length_flatten, List.map_map]
              rfl
            · intro a ha
              exact (dedup_eq_singleton_iff _ d).mp hdd |>.2 _
                (List.mem_map_of_mem _ ha)
        | cons e es =>
            rw [hdd] at hres
            cases es <;> exact Except.noConfusion hres
  · intro a b hid
    have hv : a.variant ≠ b.variant := fun h => hid (congrArg Variant.id h)
    rw [concatSameType]
    simp only [List.map_cons, List.map_nil]
    rw [List.dedup_cons_of_not_mem (by simpa using hv),
      List.dedup_cons_of_not_mem (by simp), List.dedup_nil]
    rfl

/-- A two-sample column on the `A/T` variant. -/
def gArrAT : GenotypeArray := ⟨vAT, [(0, 0), (0, 1)]⟩

/-- A one-sample column on a variant identical to `vAT` except for its id. -/
def gArrOther : GenotypeArray := ⟨{ vAT with id := ['b'] }, [(1, 1)]⟩

/-- Witness for C8: concatenating the two concrete columns with differing
variant ids fails, and the failure is equivalent to their dtypes not all being
equal. -/
theorem claim_C8_witness :
    ((concatSameType [gArrAT, gArrOther]).isOk = false ↔
      ¬ ∀ a ∈ [gArrAT, gArrOther], ∀ b ∈ [gArrAT, gArrOther],
        a.variant = b.variant) ∧
    (concatSameType [gArrAT, gArrOther]).isOk = false :=
  ⟨(claim_C8_concat [gArrAT, gArrOther] (List.cons_ne_nil _ _)).1,
   (claim_C8_concat [gArrAT] (List.cons_ne_nil _ _)).2.2 gArrAT gArrOther
     (by decide)⟩

/-!
## PLINK BED bit codec (`to_plink.gt_array_to_plink_bits` /
`from_plink.create_gt_array`)

Both halves of the codec were written against a `GenotypeArray` exposing an
`allele_idxs` matrix and an `is_missing` mask and storing a per-sample score
field.  The `GenotypeArray` of this tree (`arrays/genotype_array.py`)
provides none of that: it defines neither `allele_idxs` nor `is_missing`,
and its `_record_type` holds two scalar fields `allele1`/`allele2`.  So the
writer raises `AttributeError` on its first statement, and the reader raises
`ValueError` when it zips the decoded index pairs (plus a score) into that
record dtype; only the reader's bit-unpacking prefix executes.
-/

/-- `gt_array_to_plink_bits`: its first statement reads
`gt_series.array.allele_idxs` (and the next one `gt_series.array.is_missing`);
the `GenotypeArray` of this tree defines neither attribute, so every call
raises `AttributeError` before a single bit is packed and no record bytes are
ever produced. -/
def gtArrayToPlinkBits (_ : GenotypeArray) : Except Unit (List Nat) :=
  .error ()

/-- `np.unpackbits` of one byte, most significant bit first. -/
def toBits8 (b : Nat) : List Nat :=
  (List.range 8).map (fun i => b / 2 ^ (7 - i) % 2)

/-- Consecutive bit pairs (the `reshape(-1, 2)` of the decoder). -/
def bitPairs : List Nat → List (Nat × Nat)
  | b0 :: b1 :: rest => (b0, b1) :: bitPairs rest
  | _ => []

/-- The executed prefix of `create_gt_array` (from_plink.py lines 178-187):
unpack each byte into four 2-bit codes, flip them back into sample order,
keep the first `num_samples` pairs (discarding padding), then decode
`(0,1) ↦ missing` and `(1,0) ↦ heterozygous (0,1)`. -/
def decodePlinkGenotypes (numSamples : Nat) (bytes : List Nat) : List (Nat × Nat) :=
  ((bytes.flatMap (fun b => (bitPairs (toBits8 b)).reverse)).take numSamples).map
    (fun r =>
      if r = (0, 1) then (MISSING_IDX, MISSING_IDX)
      else if r = (1, 0) then (0, 1) else r)

/-- `create_gt_array`: after the decode prefix above, line 191 zips each
decoded index pair together with a score into the two scalar fields of
`_record_type` — assigning a length-2 sequence to the scalar `allele1` field,
a `ValueError` — so no `GenotypeArray` is ever returned. -/
def createGtArray (numSamples : Nat) (bytes : List Nat) :
    Except Unit GenotypeArray :=
  let _genotypes := decodePlinkGenotypes numSamples bytes
  .error ()

/-- C1: the claimed BED round trip cannot complete in this tree.  Writing any
column — in particular the claim's biallelic diploid column with a missing
genotype and `N = 5` not divisible by 4 — raises `AttributeError` at the
writer's first statement, so no record bytes exist to zero-fill; and decoding
any bytes raises `ValueError` while constructing the result array, so no
allele indices ever come back to compare with the original. -/
theorem claim_C1_plink_roundtrip_bug :
    gtArrayToPlinkBits ⟨vAT, [(255, 255), (0, 0), (0, 1), (1, 1), (0, 0)]⟩ =
      .error () ∧
    gtArrayToPlinkBits gArrAT = .error () ∧
    createGtArray 5 [2, 0] = .error () ∧
    (∀ arr : GenotypeArray, gtArrayToPlinkBits arr = .error ()) ∧
    (∀ (n : Nat) (bytes : List Nat), createGtArray n bytes = .error ()) :=
  ⟨rfl, rfl, rfl, fun _ => rfl, fun _ _ => rfl⟩

/-- The reader's executed prefix on one concrete byte: the low bit pair `10`
is the fourth sample after the per-byte flip and decodes to the heterozygous
pair; pairs beyond `num_samples` are discarded. -/
theorem decodePlinkGenotypes_eval :
    decodePlinkGenotypes 4 [2] = [(0, 1), (0, 0), (0, 0), (0, 0)] ∧
    decodePlinkGenotypes 2 [2] = [(0, 1), (0, 0)] := by
  refine ⟨by decide, by decide⟩

/-!
## `factorize` / `unique` / `value_counts`

In this generation of the class a record is just the pair of allele fields,
so "identity" of rows is equality of these pairs (no score is stored at all).
`np.unique` returns **sorted** distinct values; `factorize` additionally uses
`return_index` plus an index sort to recover first-seen order.  Two of the
three methods then cross the same generation seam as `set_reference`:
`factorize` iterates its uniques array, whose scalar `__getitem__`
(genotype_array.py:417) constructs `Genotype(variant=…, allele1=…,
allele2=…)` with keywords `pandas_genomics.scalars.Genotype` does not accept
(`TypeError`), and `value_counts` with `dropna=True` compares its index to
`na_value` via `_get_alleles_for_ops`, which reads `other.allele1` — an
attribute that `Genotype` does not have (`AttributeError`).  Only `unique()`
runs to completion.
-/

/-- The fully missing record, `GenotypeDtype.na_value`'s allele pair. -/
def missingPair : Nat × Nat := (MISSING_IDX, MISSING_IDX)

/-- Lexicographic `≤` on records, the order `np.unique` sorts the structured
`(allele1, allele2)` array by. -/
def pairLe (a b : Nat × Nat) : Prop :=
  a.1 < b.1 ∨ (a.1 = b.1 ∧ a.2 ≤ b.2)

instance (a b : Nat × Nat) : Decidable (pairLe a b) := by
  unfold pairLe; infer_instance

/-- Strict lexicographic order on records. -/
def pairLt (a b : Nat × Nat) : Prop :=
  a.1 < b.1 ∨ (a.1 = b.1 ∧ a.2 < b.2)

/-- Sorted insertion of one record. -/
def insertPair (a : Nat × Nat) : List (Nat × Nat) → List (Nat × Nat)
  | [] => [a]
  | b :: r => if pairLe a b then a :: b :: r else b :: insertPair a r

/-- Insertion sort by the lexicographic record order (the sort inside
`np.unique`). -/
def sortPairs : List (Nat × Nat) → List (Nat × Nat)
  | [] => []
  | a :: r => insertPair a (sortPairs r)

/-- Collapse adjacent duplicates of a sorted list (the dedup inside
`np.unique`). -/
def dedupSorted : List (Nat × Nat) → List (Nat × Nat)
  | [] => []
  | [a] => [a]
  | a :: b :: r => if a = b then dedupSorted (b :: r) else a :: dedupSorted (b :: r)

/-- `np.unique` on the record array: sorted distinct values. -/
def npUnique (l : List (Nat × Nat)) : List (Nat × Nat) :=
  dedupSorted (sortPairs l)

/-- `GenotypeArray.unique`: a new array over the same dtype holding
`np.unique(self._data)`. -/
def uniqueGA (arr : GenotypeArray) : GenotypeArray :=
  ⟨arr.variant, npUnique arr.records⟩

/-- `GenotypeArray.value_counts`: `np.unique` with counts succeeds, but with
`dropna` set (the default) the filter `result.index != self.dtype.na_value`
(genotype_array.py:525) reaches `_get_alleles_for_ops`, which reads
`other.allele1` off the na-value `Genotype` — an attribute
`pandas_genomics.scalars.Genotype` does not have — so the dropna path raises
`AttributeError`; without `dropna` the sorted counts are returned. -/
def valueCounts (arr : GenotypeArray) (dropna : Bool) :
    Except Unit (List ((Nat × Nat) × Nat)) :=
  if dropna then .error ()
  else .ok ((npUnique arr.records).map (fun u => (u, arr.records.count u)))

/-- Distinct values in order of first appearance (what
`np.unique(..., return_index=True)` followed by `np.sort(idx)` indexing
computes at genotype_array.py:501-503, before the loop below it crashes),
with an accumulator of already seen values. -/
def firstSeenAux (seen : List (Nat × Nat)) : List (Nat × Nat) → List (Nat × Nat)
  | [] => []
  | a :: r => if a ∈ seen then firstSeenAux seen r else a :: firstSeenAux (a :: seen) r

/-- Distinct records in first-seen order. -/
def firstSeen (l : List (Nat × Nat)) : List (Nat × Nat) := firstSeenAux [] l

/-- `GenotypeArray.factorize`: the empty array returns empty codes and itself
(genotype_array.py:495-496).  A nonempty array computes the first-seen
uniques, but the loop `for idx, gt in enumerate([gt for gt in uniques ...])`
iterates the uniques array, whose scalar `__getitem__` (line 417) constructs
`Genotype(variant=…, allele1=…, allele2=…)` — keyword arguments that
`pandas_genomics.scalars.Genotype` does not accept — so every nonempty call
raises `TypeError` before any code is assigned. -/
def factorize (arr : GenotypeArray) (_naSentinel : Int) :
    Except Unit (List Int × GenotypeArray) :=
  if arr.records = [] then .ok ([], arr)
  else
    let _uniques := firstSeen arr.records
    .error ()

/-- C9 counterexample: `unique()` returns `np.unique`'s **sorted** values,
not first-seen order, and does not exclude the fully missing record: on
records `[(0,1), (0,0)]` it returns `[(0,0), (0,1)]` although first-seen
order is `[(0,1), (0,0)]`, and on `[(255,255), (0,0)]` the missing record is
a member of the result.  `factorize()` and `value_counts()` (with its default
`dropna=True`) do not group anything at all on this input: both raise at the
generation seam. -/
theorem claim_C9_counterexample :
    (uniqueGA ⟨vAT, [(0, 1), (0, 0)]⟩).records = [(0, 0), (0, 1)] ∧
    firstSeen [(0, 1), (0, 0)] = [(0, 1), (0, 0)] ∧
    ([(0, 0), (0, 1)] : List (Nat × Nat)) ≠ [(0, 1), (0, 0)] ∧
    (uniqueGA ⟨vAT, [(255, 255), (0, 0)]⟩).records = [(0, 0), (255, 255)] ∧
    missingPair ∈ (uniqueGA ⟨vAT, [(255, 255), (0, 0)]⟩).records ∧
    factorize ⟨vAT, [(0, 1), (0, 0)]⟩ (-1) = .error () ∧
    valueCounts ⟨vAT, [(0, 1), (0, 0)]⟩ true = .error () := by
  refine ⟨by decide, by decide, by decide, by decide, by decide, rfl, rfl⟩

/-! ### Order and membership lemmas for the C9 models -/

theorem pairLe_total (a b : Nat × Nat) : pairLe a b ∨ pairLe b a := by
  rcases a with ⟨a1, a2⟩; rcases b with ⟨b1, b2⟩
  simp only [pairLe]
  omega

theorem pairLt_of_le_of_ne {a b : Nat × Nat} (h : pairLe a b) (hne : a ≠ b) :
    pairLt a b := by
  rcases a with ⟨a1, a2⟩; rcases b with ⟨b1, b2⟩
  simp only [pairLe, pairLt] at *
  simp only [ne_eq, Prod.mk.injEq, not_and] at hne
  omega

theorem pairLt_of_lt_of_le {a b c : Nat × Nat} (h1 : pairLt a b) (h2 : pairLe b c) :
    pairLt a c := by
  rcases a with ⟨a1, a2⟩; rcases b with ⟨b1, b2⟩; rcases c with ⟨c1, c2⟩
  simp only [pairLe, pairLt] at *
  omega

theorem pairLe_trans {a b c : Nat × Nat} (h1 : pairLe a b) (h2 : pairLe b c) :
    pairLe a c := by
  rcases a with ⟨a1, a2⟩; rcases b with ⟨b1, b2⟩; rcases c with ⟨c1, c2⟩
  simp only [pairLe] at *
  omega

theorem mem_insertPair {x a : Nat × Nat} {l : List (Nat × Nat)} :
    x ∈ insertPair a l ↔ x = a ∨ x ∈ l := by
  induction l with
  | nil => simp [insertPair]
  | cons b r ih =>
      by_cases h : pairLe a b
      · simp [insertPair, h]
      · simp only [insertPair, if_neg h, List.mem_cons, ih]
        tauto

theorem mem_sortPairs {x : Nat × Nat} {l : List (Nat × Nat)} :
    x ∈ sortPairs l ↔ x ∈ l := by
  induction l with
  | nil => simp [sortPairs]
  | cons a r ih => simp [sortPairs, mem_insertPair, ih]

theorem sorted_insertPair {a : Nat × Nat} {l : List (Nat × Nat)}
    (hl : l.Pairwise pairLe) : (insertPair a l).Pairwise pairLe := by
  induction l with
  | nil => simp [insertPair]
  | cons b r ih =>
      rcases List.pairwise_cons.mp hl with ⟨hbr, hr⟩
      by_cases h : pairLe a b
      · rw [insertPair, if_pos h]
        exact List.pairwise_cons.mpr
          ⟨fun x hx => (List.mem_cons.mp hx).elim (fun hxb => hxb ▸ h)
            (fun hxr => pairLe_trans h (hbr x hxr)), hl⟩
      · rw [insertPair, if_neg h]
        refine List.pairwise_cons.mpr ⟨?_, ih hr⟩
        intro x hx
        rcases mem_insertPair.mp hx with rfl | hxr
        · exact (pairLe_total x b).resolve_left h
        · exact hbr x hxr

theorem sorted_sortPairs (l : List (Nat × Nat)) : (sortPairs l).Pairwise pairLe := by
  induction l with
  | nil => simp [sortPairs]
  | cons a r ih => exact sorted_insertPair ih

theorem mem_dedupSorted {x : Nat × Nat} : ∀ {l : List (Nat × Nat)},
    x ∈ dedupSorted l ↔ x ∈ l
  | [] => by simp [dedupSorted]
  | [a] => by simp [dedupSorted]
  | a :: b :: r => by
      by_cases h : a = b
      · rw [dedupSorted, if_pos h]
        rw [@mem_dedupSorted x (b :: r)]
        subst h
        simp
      · rw [dedupSorted, if_neg h]
        simp only [List.mem_cons]
        rw [show (x ∈ dedupSorted (b :: r)) ↔ x ∈ b :: r from
          @mem_dedupSorted x (b :: r)]
        simp

theorem strictSorted_dedupSorted : ∀ {l : List (Nat × Nat)},
    l.Pairwise pairLe → (dedupSorted l).Pairwise pairLt
  | [] => fun _ => by simp [dedupSorted]
  | [a] => fun _ => by simp [dedupSorted]
  | a :: b :: r => fun hl => by
      rcases List.pairwise_cons.mp hl with ⟨habr, hbr⟩
      by_cases h : a = b
      · rw [dedupSorted, if_pos h]
        exact strictSorted_dedupSorted hbr
      · rw [dedupSorted, if_neg h]
        refine List.pairwise_cons.mpr ⟨?_, strictSorted_dedupSorted hbr⟩
        intro x hx
        have hxbr : x ∈ b :: r := mem_dedupSorted.mp hx
        have hab : pairLt a b := pairLt_of_le_of_ne (habr b (by simp)) h
        rcases List.mem_cons.mp hxbr with rfl | hxr
        · exact hab
        · exact pairLt_of_lt_of_le hab ((List.pairwise_cons.mp hbr).1 x hxr)

/-- C9 amended: `factorize` returns empty codes and the unchanged array for an
empty column, and raises `TypeError` for every nonempty column: iterating the
computed uniques goes through `__getitem__`, which constructs `Genotype` with
`allele1`/`allele2` keyword arguments that `pandas_genomics.scalars.Genotype`
does not accept.  `unique()` returns the distinct allele-index patterns in
ascending lexicographic (sorted) order — not first-seen order — and keeps the
fully missing pattern; `value_counts` with its default `dropna=True` raises
`AttributeError` (comparing the resulting index to `na_value` reads
`Genotype.allele1`, absent from the staged scalar), while
`value_counts(dropna=False)` returns the count of every distinct pattern with
its index likewise sorted. -/
theorem claim_C9_amended :
    (∀ (arr : GenotypeArray) (naS : Int), arr.records ≠ [] →
      factorize arr naS = .error ()) ∧
    (∀ (arr : GenotypeArray) (naS : Int), arr.records = [] →
      factorize arr naS = .ok ([], arr)) ∧
    (∀ arr : GenotypeArray,
      (uniqueGA arr).records.Pairwise pairLt ∧
      (∀ x, x ∈ (uniqueGA arr).records ↔ x ∈ arr.records) ∧
      (uniqueGA arr).variant = arr.variant) ∧
    (∀ arr : GenotypeArray, valueCounts arr true = .error ()) ∧
    (∀ (arr : GenotypeArray) (res : List ((Nat × Nat) × Nat)),
      valueCounts arr false = .ok res →
      ((∀ u c, ((u, c) ∈ res ↔ u ∈ arr.records ∧ c = arr.records.count u)) ∧
        res.Pairwise (fun p q => pairLt p.1 q.1))) := by
  have hmemU : ∀ (l : List (Nat × Nat)) (x : Nat × Nat),
      x ∈ npUnique l ↔ x ∈ l := fun l x => mem_dedupSorted.trans mem_sortPairs
  refine ⟨?_, ?_, ?_, ?_, ?_⟩
  · intro arr naS h
    rw [factorize, if_neg h]
  · intro arr naS h
    rw [factorize, if_pos h]
  · intro arr
    exact ⟨strictSorted_dedupSorted (sorted_sortPairs _),
      fun x => hmemU arr.records x, rfl⟩
  · intro arr
    rfl
  · intro arr res h
    rw [valueCounts, if_neg (by simp)] at h
    have hres : res = (npUnique arr.records).map
        (fun u => (u, arr.records.count u)) := (Except.ok.injEq .. ▸ h).symm
    subst hres
    constructor
    · intro u c
      constructor
      · intro hmem
        rcases List.mem_map.mp hmem with ⟨u', hu', heq⟩
        rcases Prod.mk.injEq .. ▸ heq with ⟨rfl, rfl⟩
        exact ⟨(hmemU arr.records u').mp hu', rfl⟩
      · rintro ⟨hmem, rfl⟩
        exact List.mem_map.mpr ⟨u, (hmemU arr.records u).mpr hmem, rfl⟩
    · refine List.pairwise_map.mpr ?_
      refine (strictSorted_dedupSorted (sorted_sortPairs _)).imp ?_
      intro a b hab
      exact hab

/-- Witness for the amended C9 statement: `factorize` errors on a concrete
nonempty column and succeeds trivially on the empty column, and the
`dropna=False` count characterisation holds at a concrete entry. -/
theorem claim_C9_amended_witness :
    factorize gArrAT (-1) = .error () ∧
    factorize ⟨vAT, []⟩ (-1) = .ok ([], ⟨vAT, []⟩) ∧
    (((0, 0), 1) ∈ [((0, 0), 1), ((0, 1), 1)] ↔
      ((0 : Nat), (0 : Nat)) ∈ gArrAT.records ∧
        1 = gArrAT.records.count (0, 0)) :=
  ⟨claim_C9_amended.1 gArrAT (-1) (by decide),
   claim_C9_amended.2.1 ⟨vAT, []⟩ (-1) rfl,
   ((claim_C9_amended.2.2.2.2 gArrAT [((0, 0), 1), ((0, 1), 1)] rfl).1 (0, 0) 1)⟩

/-!
## `GenotypeArray.set_reference`

The method accepts an allele string or an allele index.  The string branch
calls `self.variant.get_allele_idx(allele, add=False)` — but the `Variant`
class of `pandas_genomics.scalars` has no method of that name (its lookup is
called `get_idx_from_allele`), so the string branch raises `AttributeError`
unconditionally.  The index branch validates the index, reads the allele
string (an out-of-range read for `MISSING_IDX`, which `is_valid_allele_idx`
lets through), returns unchanged for index 0, and otherwise swaps index 0
with the chosen index in both the palette and the stored records. -/

/-- The argument of `set_reference`: an allele string or an allele index. -/
inductive SetRefArg where
  | byStr (s : List Char)
  | byIdx (i : Int)
deriving DecidableEq, Repr

/-- The record relabeling of `set_reference`: old reference positions take the
chosen index, chosen-index positions become 0, everything else unchanged
(both masks are computed before either write). -/
def swapIdx (idx e : Nat) : Nat :=
  if e = 0 then idx else if e = idx then 0 else e

/-- `GenotypeArray.set_reference`. -/
def setReference (arr : GenotypeArray) (allele : SetRefArg) :
    Except Unit GenotypeArray :=
  match allele with
  | .byStr _ =>
      -- `AttributeError`: `Variant.get_allele_idx` does not exist (renamed
      -- `get_idx_from_allele`), so the string branch never resolves.
      .error ()
  | .byIdx i =>
      if ¬ (i = (MISSING_IDX : Nat) ∨ (0 ≤ i ∧ i ≤ arr.variant.alleles.length - 1))
        then .error ()
      else if arr.variant.alleles.length ≤ i.toNat then .error ()
      else if i = 0 then .ok arr
      else
        .ok ⟨{ arr.variant with
                alleles := arr.variant.alleles.getD i.toNat [] ::
                  (arr.variant.alleles.set i.toNat
                    (arr.variant.alleles.headD [])).drop 1 },
             arr.records.map (fun p => (swapIdx i.toNat p.1, swapIdx i.toNat p.2))⟩

/-- C4: the claim covers `set_reference` given "an allele string or a valid
allele index".  The string form always raises (the lookup method was renamed
out from under this call site), shown here on a concrete array whose palette
does contain the requested allele; the same target given as its index
performs the claimed swap of index 0 with index 1 in palette and records. -/
theorem claim_C4_set_reference_string_error :
    setReference gArrAT (.byStr ['T']) = .error () ∧
    ['T'] ∈ gArrAT.variant.alleles ∧
    setReference gArrAT (.byIdx 1) =
      .ok ⟨{ vAT with alleles := [['T'], ['A']] }, [(1, 1), (1, 0)]⟩ ∧
    setReference gArrAT (.byIdx 0) = .ok gArrAT := by
  refine ⟨rfl, by decide, rfl, rfl⟩

/-- `set_reference` with index 0 (the current reference) is a no-op whenever
the palette is nonempty. -/
theorem setReference_zero_noop (arr : GenotypeArray)
    (h : arr.variant.alleles ≠ []) : setReference arr (.byIdx 0) = .ok arr := by
  have hlen : 1 ≤ arr.variant.alleles.length := by
    cases hc : arr.variant.alleles with
    | nil => exact absurd hc h
    | cons a r => simp [hc]
  rw [setReference]
  rw [if_neg (by push_neg; right; constructor <;> omega), if_neg (by omega),
    if_pos rfl]

/-- The record relabeling of `set_reference` is an involution: swapping index
0 with the chosen index twice restores every stored allele index (so repeating
the call with the target allele's *new* index, 0, is a no-op, while repeating
it with the same raw index undoes the first call). -/
theorem swapIdx_involutive (idx e : Nat) : swapIdx idx (swapIdx idx e) = e := by
  unfold swapIdx
  by_cases h0 : e = 0
  · subst h0
    by_cases hi : idx = 0 <;> simp [hi]
  · by_cases hi : e = idx
    · subst hi
      simp [h0]
    · rw [if_neg h0, if_neg hi, if_neg h0, if_neg hi]

/-!
## The dtype string grammar (`GenotypeDtype.__str__` /
`GenotypeDtype._match` / `GenotypeDtype.construct_from_string`)

Rendering is
`genotype[<chromosome>; <position>; <id>; <ref>; <alt,alt,...>]` — this
generation of the grammar carries **no ploidy and no score**.  Parsing is the
regex
`(genotype)\[(?P<chromosome>.+); (?P<position>[0-9]+); (?P<id>.+); (?P<ref>.+); (?P<alt>.+)\]`
under `re.match`.  The parser below reads the five groups deterministically:
when every field is nonempty, newline-free and contains no `';'` the string
holds exactly the four `"; "` separators the pattern needs, so the greedy
match is forced and agrees with this splitting; the final group is greedy, so
it extends to the last `']'` of the string.  Fields containing `'\n'` cannot
be matched by `.` and are rejected.  The matched groups then go through
`Variant.__init__`, whose validation failures `construct_from_string` turns
into `None` (a `TypeError` in the source).
-/

/-- The literal head `genotype[` of the grammar. -/
def GENOLIT : List Char := ['g', 'e', 'n', 'o', 't', 'y', 'p', 'e', '[']

/-- The field separator `"; "`. -/
def SEPLIT : List Char := [';', ' ']

/-- Python `f"{chromosome}"`: `None` renders as the text `None`. -/
def chromRender : Option (List Char) → List Char
  | none => ['N', 'o', 'n', 'e']
  | some c => c

/-- Decimal digit character (only applied to values below 10). -/
def digitChar : Nat → Char
  | 0 => '0' | 1 => '1' | 2 => '2' | 3 => '3' | 4 => '4'
  | 5 => '5' | 6 => '6' | 7 => '7' | 8 => '8' | 9 => '9'
  | _ => '*'

/-- Numeric value of a decimal digit character. -/
def charVal : Char → Nat
  | '0' => 0 | '1' => 1 | '2' => 2 | '3' => 3 | '4' => 4
  | '5' => 5 | '6' => 6 | '7' => 7 | '8' => 8 | '9' => 9
  | _ => 0

/-- Decimal rendering with explicit fuel (so that concrete renderings reduce
in the kernel); `natToDigits` supplies enough fuel. -/
def natToDigitsAux : Nat → Nat → List Char
  | 0, _ => []
  | fuel + 1, n =>
      if n < 10 then [digitChar n]
      else natToDigitsAux fuel (n / 10) ++ [digitChar (n % 10)]

/-- Python `f"{position}"`: decimal digits of a natural number. -/
def natToDigits (n : Nat) : List Char := natToDigitsAux (n + 1) n

/-- Python `int(...)` on a digit string. -/
def digitsToNat (l : List Char) : Nat :=
  l.foldl (fun acc c => acc * 10 + charVal c) 0

/-- `",".join(...)`. -/
def joinComma : List (List Char) → List Char
  | [] => []
  | [a] => a
  | a :: b :: r => a ++ ',' :: joinComma (b :: r)

/-- `GenotypeDtype.__str__`: note that neither `ploidy` nor `score` is
rendered. -/
def renderDtype (v : Variant) : List Char :=
  GENOLIT ++ chromRender v.chromosome ++ SEPLIT ++ natToDigits v.position ++
    SEPLIT ++ v.id ++ SEPLIT ++ v.alleles.headD [] ++ SEPLIT ++
    joinComma (v.alleles.drop 1) ++ [']']

/-- Strip an expected literal from the head of the input. -/
def dropLit : List Char → List Char → Option (List Char)
  | [], s => some s
  | _ :: _, [] => none
  | c :: p, d :: s => if c = d then dropLit p s else none

/-- Split at the first occurrence of the `"; "` separator. -/
def splitSemi : List Char → Option (List Char × List Char)
  | [] => none
  | c :: rest =>
      if c = ';' ∧ rest.head? = some ' ' then some ([], rest.tail)
      else (splitSemi rest).map (fun p => (c :: p.1, p.2))

/-- The greedy final group: everything before the last `']'` of the input
(`none` when no `']'` is present). -/
def lastBracketSplit (l : List Char) : Option (List Char) :=
  match l.reverse.dropWhile (fun c => c ≠ ']') with
  | ']' :: restRev => some restRev.reverse
  | _ => none

/-- `Variant.__init__` as invoked by `construct_from_string` (chromosome a
string, default ploidy 2, no score): `None` embeds every `ValueError`. -/
def buildVariant (chrom : List Char) (pos : Nat) (idStr ref : List Char)
    (alt : List (List Char)) : Option Variant :=
  if ref ∈ alt then none
  else if MISSING_IDX ≤ alt.length then none
  else if ';' ∈ chrom ∨ ',' ∈ chrom then none
  else if 2 ^ 31 - 2 < pos then none
  else if ';' ∈ idStr ∨ ',' ∈ idStr then none
  else some ⟨some chrom, pos, idStr, ref :: alt, 2, none⟩

/-- Checks on the matched groups that the regex itself imposes: every group
is nonempty (`.+`), the position group is digits only (`[0-9]+`), and no
group can span a newline (`.` does not match `'\n'`). -/
def parseAfterGroups (chrom posD idStr ref altStr : List Char) : Option Variant :=
  if chrom = [] ∨ posD = [] ∨ idStr = [] ∨ ref = [] ∨ altStr = [] then none
  else if ¬ posD.all Char.isDigit then none
  else if '\n' ∈ chrom ∨ '\n' ∈ idStr ∨ '\n' ∈ ref ∨ '\n' ∈ altStr then none
  else buildVariant chrom (digitsToNat posD) idStr ref (splitOnChar ',' altStr)

/-- `GenotypeDtype.construct_from_string` (deterministic reading of
`_match`, see the section comment). -/
def constructFromString (s : List Char) : Option Variant :=
  match dropLit GENOLIT s with
  | none => none
  | some r1 =>
      match splitSemi r1 with
      | none => none
      | some (chrom, r2) =>
          match splitSemi r2 with
          | none => none
          | some (posD, r3) =>
              match splitSemi r3 with
              | none => none
              | some (idStr, r4) =>
                  match splitSemi r4 with
                  | none => none
                  | some (ref, r5) =>
                      match lastBracketSplit r5 with
                      | none => none
                      | some altStr =>
                          parseAfterGroups chrom posD idStr ref altStr

/-- Reading back a digit recovers its value. -/
theorem charVal_digitChar {d : Nat} (h : d < 10) : charVal (digitChar d) = d := by
  interval_cases d <;> rfl

/-- Every rendered digit is a digit character. -/
theorem isDigit_digitChar {d : Nat} (h : d < 10) : (digitChar d).isDigit = true := by
  interval_cases d <;> rfl

/-- `digitsToNat` over an appended digit. -/
theorem digitsToNat_append_digit (l : List Char) (c : Char) :
    digitsToNat (l ++ [c]) = digitsToNat l * 10 + charVal c := by
  rw [digitsToNat, digitsToNat, List.foldl_append]
  rfl

/-- With enough fuel the decimal rendering is nonempty, all digits, and reads
back to the original number. -/
theorem natToDigitsAux_spec : ∀ (fuel n : Nat), n < fuel →
    digitsToNat (natToDigitsAux fuel n) = n ∧ natToDigitsAux fuel n ≠ [] ∧
      ∀ c ∈ natToDigitsAux fuel n, c.isDigit = true := by
  intro fuel
  induction fuel with
  | zero => intro n h; omega
  | succ f ih =>
      intro n h
      by_cases h10 : n < 10
      · rw [natToDigitsAux, if_pos h10]
        refine ⟨?_, by simp, ?_⟩
        · rw [digitsToNat]
          simp [charVal_digitChar h10]
        · intro c hc
          rcases List.mem_singleton.mp hc with rfl
          exact isDigit_digitChar h10
      · rw [natToDigitsAux, if_neg h10]
        have hdiv : n / 10 < f := by omega
        rcases ih (n / 10) hdiv with ⟨hval, hne, hdig⟩
        refine ⟨?_, by simp, ?_⟩
        · rw [digitsToNat_append_digit, hval, charVal_digitChar (by omega)]
          omega
        · intro c hc
          rcases List.mem_append.mp hc with hc1 | hc2
          · exact hdig c hc1
          · rcases List.mem_singleton.mp hc2 with rfl
            exact isDigit_digitChar (by omega)

/-- The decimal rendering of `n` reads back to `n`. -/
theorem digitsToNat_natToDigits (n : Nat) : digitsToNat (natToDigits n) = n :=
  (natToDigitsAux_spec (n + 1) n (by omega)).1

/-- The decimal rendering is nonempty. -/
theorem natToDigits_ne_nil (n : Nat) : natToDigits n ≠ [] :=
  (natToDigitsAux_spec (n + 1) n (by omega)).2.1

/-- The decimal rendering consists of digit characters. -/
theorem natToDigits_all_digit (n : Nat) :
    ∀ c ∈ natToDigits n, c.isDigit = true :=
  (natToDigitsAux_spec (n + 1) n (by omega)).2.2

/-- Dropping a literal that is literally the head of the input. -/
theorem dropLit_append (p r : List Char) : dropLit p (p ++ r) = some r := by
  induction p with
  | nil => rfl
  | cons c q ih => simp [dropLit, ih]

/-- `splitSemi` splits at the first `"; "`; with no `';'` in the head part,
that first occurrence is exactly the boundary. -/
theorem splitSemi_append {a : List Char} (ha : ';' ∉ a) (b : List Char) :
    splitSemi (a ++ ';' :: ' ' :: b) = some (a, b) := by
  induction a with
  | nil =>
      rw [List.nil_append, splitSemi, if_pos ⟨rfl, rfl⟩]
      rfl
  | cons c r ih =>
      have hc : c ≠ ';' := fun h => ha (by simp [h])
      rw [List.cons_append, splitSemi, if_neg (fun hcon => hc hcon.1),
        ih (fun h => ha (by simp [h]))]
      rfl

/-- Splitting a separator-free string yields the single field. -/
theorem splitOnChar_of_not_mem {sep : Char} {a : List Char} (ha : sep ∉ a) :
    splitOnChar sep a = [a] := by
  induction a with
  | nil => rfl
  | cons c r ih =>
      have hc : c ≠ sep := fun h => ha (by simp [h])
      rw [splitOnChar, if_neg hc, ih (fun h => ha (by simp [h]))]

/-- Splitting at a separator after a separator-free head. -/
theorem splitOnChar_append {sep : Char} {a : List Char} (ha : sep ∉ a)
    (r : List Char) :
    splitOnChar sep (a ++ sep :: r) = a :: splitOnChar sep r := by
  induction a with
  | nil => rw [List.nil_append, splitOnChar, if_pos rfl]
  | cons c a' ih =>
      have hc : c ≠ sep := fun h => ha (by simp [h])
      rw [List.cons_append, splitOnChar, if_neg hc,
        ih (fun h => ha (by simp [h]))]

/-- Joining nonempty comma-free fields and splitting again round-trips. -/
theorem splitOnChar_joinComma : ∀ (alts : List (List Char)), alts ≠ [] →
    (∀ a ∈ alts, ',' ∉ a) → splitOnChar ',' (joinComma alts) = alts
  | [], h, _ => absurd rfl h
  | [a], _, hc => by
      rw [joinComma]
      exact splitOnChar_of_not_mem (hc a (by simp))
  | a :: b :: r, _, hc => by
      rw [joinComma, splitOnChar_append (hc a (by simp)),
        splitOnChar_joinComma (b :: r) (by simp)
          (fun x hx => hc x (List.mem_cons_of_mem a hx))]

/-- The final greedy group reaches the last `']'`. -/
theorem lastBracketSplit_append (A : List Char) :
    lastBracketSplit (A ++ [']']) = some A := by
  rw [lastBracketSplit,
    show (A ++ [']']).reverse = ']' :: A.reverse by simp,
    List.dropWhile_cons]
  simp

/-- Characters of a joined list come from the fields or are the comma. -/
theorem mem_joinComma {c : Char} : ∀ {alts : List (List Char)},
    c ∈ joinComma alts → c = ',' ∨ ∃ a ∈ alts, c ∈ a
  | [], h => by cases h
  | [a], h => by
      rw [joinComma] at h
      exact Or.inr ⟨a, by simp, h⟩
  | a :: b :: r, h => by
      rw [joinComma] at h
      rcases List.mem_append.mp h with h1 | h2
      · exact Or.inr ⟨a, by simp, h1⟩
      · rcases List.mem_cons.mp h2 with rfl | h3
        · exact Or.inl rfl
        · rcases mem_joinComma h3 with h4 | ⟨x, hx, hcx⟩
          · exact Or.inl h4
          · exact Or.inr ⟨x, List.mem_cons_of_mem a hx, hcx⟩

/-- A join of fields headed by a nonempty field is nonempty. -/
theorem joinComma_ne_nil {a : List Char} {rest : List (List Char)}
    (ha : a ≠ []) : joinComma (a :: rest) ≠ [] := by
  cases rest with
  | nil => simpa [joinComma] using ha
  | cons b r =>
      rw [joinComma]
      intro h
      rcases List.append_eq_nil.mp h with ⟨-, h2⟩
      exact List.noConfusion h2

/-- C5 amended: the dtype grammar of this code carries neither ploidy nor a
`Q<score>` suffix.  For every `Variant` whose chromosome is present and whose
chromosome, id, reference and alternate alleles are nonempty, newline-free
fields without `';'` (and without `','` where the grammar or the `Variant`
validation forbids it), with at least one and fewer than 255 alternate
alleles, `ref` not repeated among the alternates and the position within
bounds, parsing the rendered dtype string recovers the chromosome, position,
id and allele palette exactly — while `ploidy` always comes back as the
default 2 and `score` as missing, whatever the original held. -/
theorem claim_C5_amended (chrom idStr ref : List Char) (alts : List (List Char))
    (pos p : Nat) (sc : Option Nat)
    (hch : chrom ≠ [] ∧ ';' ∉ chrom ∧ ',' ∉ chrom ∧ '\n' ∉ chrom)
    (hid : idStr ≠ [] ∧ ';' ∉ idStr ∧ ',' ∉ idStr ∧ '\n' ∉ idStr)
    (href : ref ≠ [] ∧ ';' ∉ ref ∧ '\n' ∉ ref)
    (halts : alts ≠ [] ∧ ∀ a ∈ alts, a ≠ [] ∧ ';' ∉ a ∧ ',' ∉ a ∧ '\n' ∉ a)
    (hra : ref ∉ alts) (hlen : alts.length < MISSING_IDX)
    (hpos : pos ≤ 2 ^ 31 - 2) :
    constructFromString
      (renderDtype ⟨some chrom, pos, idStr, ref :: alts, p, sc⟩) =
      some ⟨some chrom, pos, idStr, ref :: alts, 2, none⟩ := by
  have hdigsemi : ';' ∉ natToDigits pos := fun hmem =>
    absurd (natToDigits_all_digit pos ';' hmem) (by decide)
  have haltnl : '\n' ∉ joinComma alts := by
    intro hmem
    rcases mem_joinComma hmem with h1 | ⟨x, hx, hcx⟩
    · exact absurd h1 (by decide)
    · exact (halts.2 x hx).2.2.2 hcx
  have hjoin_ne : joinComma alts ≠ [] := by
    rcases halts with ⟨hne, hall⟩
    cases hA : alts with
    | nil => exact absurd hA hne
    | cons a rest =>
        exact joinComma_ne_nil (hall a (by rw [hA]; simp)).1
  rw [renderDtype]
  simp only [SEPLIT, List.append_assoc, List.cons_append, List.nil_append]
  rw [constructFromString]
  simp only [chromRender, List.headD_cons, List.drop_one, List.tail_cons]
  simp only [dropLit_append, splitSemi_append hch.2.1, splitSemi_append hdigsemi,
    splitSemi_append hid.2.1, splitSemi_append href.2.1,
    lastBracketSplit_append]
  rw [parseAfterGroups]
  rw [if_neg (by
    push_neg
    exact ⟨hch.1, natToDigits_ne_nil pos, hid.1, href.1, hjoin_ne⟩)]
  rw [if_neg (by
    simp only [not_not, List.all_eq_true]
    exact fun c hc => natToDigits_all_digit pos c hc)]
  rw [if_neg (by
    push_neg
    exact ⟨hch.2.2.2, hid.2.2.2, href.2.2, haltnl⟩)]
  rw [buildVariant, digitsToNat_natToDigits,
    splitOnChar_joinComma alts halts.1 (fun a ha => (halts.2 a ha).2.2.1)]
  rw [if_neg hra, if_neg (by omega), if_neg (by push_neg; exact ⟨hch.2.1, hch.2.2.1⟩),
    if_neg (by omega), if_neg (by push_neg; exact ⟨hid.2.1, hid.2.2.1⟩)]

/-- A variant with ploidy 3 and a quality score, for the C5 counterexample. -/
def vPloidy3 : Variant :=
  { chromosome := some ['1'], position := 5, id := ['v'],
    alleles := [['A'], ['T']], ploidy := 3, score := some 7 }

/-- C5 counterexample: the rendered dtype string of a ploidy-3, score-7
variant contains no ploidy and no `Q` suffix, and parsing it back yields the
same chromosome/position/id/alleles but ploidy 2 and no score — not a Variant
identical to the original as the claim requires. -/
theorem claim_C5_counterexample :
    renderDtype vPloidy3 =
      ('g' :: 'e' :: 'n' :: 'o' :: 't' :: 'y' :: 'p' :: 'e' :: '[' :: '1' ::
        ';' :: ' ' :: '5' :: ';' :: ' ' :: 'v' :: ';' :: ' ' :: 'A' :: ';' ::
        ' ' :: 'T' :: ']' :: []) ∧
    'Q' ∉ renderDtype vPloidy3 ∧
    constructFromString (renderDtype vPloidy3) =
      some { vPloidy3 with ploidy := 2, score := none } ∧
    constructFromString (renderDtype vPloidy3) ≠ some vPloidy3 := by
  refine ⟨by decide, by decide, by decide, by decide⟩

/-- Witness for the amended C5 statement on a concrete variant with ploidy 5
and score 3: all field hypotheses hold and the parse recovers the four
rendered components with default ploidy and score. -/
theorem claim_C5_amended_witness :
    constructFromString
      (renderDtype ⟨some ['c', '1'], 123, ['r', 's', '1'], [['A'], ['T'], ['G']],
        5, some 3⟩) =
      some ⟨some ['c', '1'], 123, ['r', 's', '1'], [['A'], ['T'], ['G']], 2, none⟩ :=
  claim_C5_amended ['c', '1'] ['r', 's', '1'] ['A'] [['T'], ['G']] 123 5 (some 3)
    (by decide) (by decide) (by decide)
    ⟨by decide, by decide⟩ (by decide) (by decide) (by norm_num)

end PandasGenomics
